import Mathlib

/-!
# Verification of the scholar-query-splitter splitting engine

Shallow embedding of the exhaustive query splitter
(`pipeline/exhaustive_splitter.py`), the query generator
(`pipeline/query_generation.py`) and the hit counter
(`pipeline/scholar_hits.py`), together with theorems settling the
specification claims.

The hit-counting oracle is modelled as a pure function `String → Nat`
(the query string, year suffix included, to its hit count); rates and
percentages computed with Python floats are modelled over `ℚ`.
-/

namespace SQS

/-- Python value appearing at positions ≥ 1 of a modifier tuple
(a score, or an entity-type string). -/
inductive PyVal where
  | s (v : String)
  | q (v : ℚ)
deriving DecidableEq, Repr

/-- A modifier tuple `(text, rest...)` as passed to `_prepare_modifiers`:
`item[0]` is the text, `rest` holds the remaining tuple components, so
the Python `len(item)` is `1 + rest.length`. -/
structure PyTuple where
  text : String
  rest : List PyVal
deriving DecidableEq, Repr

/-- Helper for `wordCount`: counts maximal non-whitespace runs, with a
flag telling whether the previous character was inside a word. -/
def wordCountAux : List Char → Bool → Nat
  | [], _ => 0
  | c :: cs, inWord =>
      if c.isWhitespace then wordCountAux cs false
      else (if inWord then 0 else 1) + wordCountAux cs true

/-- `len(s.split())` in Python: number of maximal whitespace-free words. -/
def wordCount (s : String) : Nat := wordCountAux s.toList false

example : wordCount "a b c" = 3 := by decide
example : wordCount "machine  learning" = 2 := by decide

/-- Score selection in the keyword branch of `_prepare_modifiers`:
`item[1] if len(item) == 2 else item[2]`. -/
def keywordScore (rest : List PyVal) : PyVal :=
  if rest.length = 1 then rest.getD 0 (.q 0) else rest.getD 1 (.q 0)

/-- The keyword branch of `_prepare_modifiers`: tuples of length ≥ 2
whose text is a uni- or bi-gram survive as `(keyword, score)`. -/
def prepKeyword (item : PyTuple) : Option (String × PyVal) :=
  if item.rest.length ≥ 1 then
    if wordCount item.text ≤ 2 then some (item.text, keywordScore item.rest)
    else none
  else none

/-- The entity branch of `_prepare_modifiers`: every tuple of length ≥ 2
survives; the length-3 format keeps its type component, any other length
keeps `(entity, item[1])`. No word-count filter is applied. -/
def prepEntity (item : PyTuple) : Option PyTuple :=
  if item.rest.length ≥ 1 then
    if item.rest.length = 2 then
      some ⟨item.text, [item.rest.getD 0 (.s ""), item.rest.getD 1 (.q 0)]⟩
    else
      some ⟨item.text, [item.rest.getD 0 (.q 0)]⟩
  else none

/-- `ExhaustiveQuerySplitter._prepare_modifiers`. -/
def prepareModifiers (keywords entities : List PyTuple) :
    List (String × PyVal) × List PyTuple :=
  (keywords.filterMap prepKeyword, entities.filterMap prepEntity)

/-- The query string sent to the oracle by
`ExhaustiveQuerySplitter._get_hit_count`: when a year range is given the
suffix ` after:<start> before:<end>` is appended verbatim (no ±1
adjustment at this site). -/
def getHitCountQuery (query : String) (yearRange : Option (Int × Int)) : String :=
  match yearRange with
  | some (s, e) => query ++ " after:" ++ toString s ++ " before:" ++ toString e
  | none => query

/-- Hit count returned by `_get_hit_count` under a pure oracle. -/
def getHitCount (oracle : String → Nat) (query : String)
    (yearRange : Option (Int × Int)) : Nat :=
  oracle (getHitCountQuery query yearRange)

/-- The query string built by `QueryGenerator._create_query_dict`:
`(base)` followed by the modifier strings verbatim, then
` after:<start-1> before:<end+1>` when a year range is present
(`start-1`/`start+1` in the single-year branch). -/
def createQueryString (baseQuery : String) (modifiers : List String)
    (yearRange : Option (Int × Int)) : String :=
  let q := String.intercalate " " (("(" ++ baseQuery ++ ")") :: modifiers)
  match yearRange with
  | some (s, e) =>
      if s = e then
        q ++ " after:" ++ toString (s - 1) ++ " before:" ++ toString (s + 1)
      else
        q ++ " after:" ++ toString (s - 1) ++ " before:" ++ toString (e + 1)
  | none => q

example : getHitCountQuery "Q" (some (2020, 2020)) = "Q after:2020 before:2020" := by rfl

example : createQueryString "Q" ["m1", "m2"] (some (2020, 2020)) =
    "(Q) m1 m2 after:2019 before:2021" := by rfl

/-! ## Modifier effectiveness map (`_build_modifier_map`) -/

/-- One value of the effectiveness dictionaries:
`{'hits': ..., 'reduction_rate': ...}` (the extra `score`/`item` fields
carry no information used downstream and are omitted). -/
structure ModEff where
  hits : Nat
  reductionRate : ℚ
deriving DecidableEq, Repr

/-- Python dict assignment `d[k] = v` on an association list: an existing
key keeps its position and gets the new value, a new key is appended. -/
def dictInsert (k : String) (v : ModEff) :
    List (String × ModEff) → List (String × ModEff)
  | [] => [(k, v)]
  | (k', v') :: rest =>
      if k' = k then (k, v) :: rest else (k', v') :: dictInsert k v rest

/-- `1 - (hits / base)` as evaluated by Python: raises
`ZeroDivisionError` when `base = 0`. -/
def reductionRate (hits base : Nat) : Except String ℚ :=
  if base = 0 then .error "ZeroDivisionError"
  else .ok (1 - (hits : ℚ) / (base : ℚ))

/-- `AND "modifier"` test-query assembly used throughout the splitter. -/
def andQuoted (base m : String) : String := base ++ " AND \"" ++ m ++ "\""

/-- Stable insertion (descending by `key`) modelling one step of Python's
stable `list.sort(key=..., reverse=True)`. -/
def insDesc {α β : Type} [LinearOrder β] (key : α → β) (m : α) :
    List α → List α
  | [] => [m]
  | x :: xs => if key x ≤ key m then m :: x :: xs else x :: insDesc key m xs

/-- Stable descending sort by `key`, the model of
`list.sort(key=..., reverse=True)` (proved to be a permutation, sorted
descending, and stable below). -/
def sortDesc {α β : Type} [LinearOrder β] (key : α → β) (l : List α) : List α :=
  l.foldr (insDesc key) []

/-- One phase of `_build_modifier_map`: for each of the first 30 modifier
texts, query `base AND "text"`, re-query the base, and record hits and
reduction rate; dictionary semantics collapse duplicate texts. Raises
(`Except.error`) when the freshly re-queried base hit count is zero. -/
def buildMapSide (oracle : String → Nat) (base : String)
    (yr : Option (Int × Int)) (texts : List String) :
    Except String (List (String × ModEff)) :=
  (texts.take 30).foldlM (fun acc t => do
    let hits := getHitCount oracle (andQuoted base t) yr
    let rate ← reductionRate hits (getHitCount oracle base yr)
    pure (dictInsert t ⟨hits, rate⟩ acc)) []

/-- `ExhaustiveQuerySplitter._build_modifier_map`: builds the keyword and
entity effectiveness dictionaries and sorts each descending by reduction
rate (Python's stable sort). -/
def buildModifierMap (oracle : String → Nat) (base : String)
    (keywords : List (String × PyVal)) (entities : List PyTuple)
    (yr : Option (Int × Int)) :
    Except String (List (String × ModEff) × List (String × ModEff)) := do
  let kw ← buildMapSide oracle base yr (keywords.map Prod.fst)
  let ent ← buildMapSide oracle base yr (entities.map PyTuple.text)
  pure (sortDesc (fun p => p.2.reductionRate) kw,
        sortDesc (fun p => p.2.reductionRate) ent)

/-! ## Split strategy builder (`_create_split_strategy`) -/

/-- Entry of the `all_modifiers` candidate pool. -/
structure PoolMod where
  type : String
  modifier : String
  hits : Nat
deriving DecidableEq, Repr

/-- A strategy entry (`SplitCandidate`). -/
structure Candidate where
  query : String
  modifiers : List String
  expectedHits : Nat
  kind : String
deriving DecidableEq, Repr

/-- The candidate pool: keywords then entities, each filtered to
`hits < target and hits > 0`, in effectiveness-map order. -/
def buildPool (target : Nat) (kwMap entMap : List (String × Nat)) : List PoolMod :=
  (kwMap.filter (fun p => decide (p.2 < target ∧ 0 < p.2))).map
      (fun p => ⟨"keyword", p.1, p.2⟩)
    ++ (entMap.filter (fun p => decide (p.2 < target ∧ 0 < p.2))).map
      (fun p => ⟨"entity", p.1, p.2⟩)

/-- `all_modifiers` after the stable descending sort by hits. -/
def sortedPool (target : Nat) (kwMap entMap : List (String × Nat)) : List PoolMod :=
  sortDesc (fun m : PoolMod => m.hits) (buildPool target kwMap entMap)

/-- The `SplitCandidate` emitted for an accepted Phase-1 modifier. -/
def toSingleCandidate (base : String) (m : PoolMod) : Candidate :=
  ⟨andQuoted base m.modifier, [m.modifier], m.hits, "single"⟩

/-- The Phase-1 greedy loop: break when `remaining ≤ 0`, skip used
modifiers, otherwise emit a `single` candidate, mark the modifier used
and subtract its hits. -/
def phase1Loop (base : String) :
    List PoolMod → Int → List String → List Candidate →
    List Candidate × Int × List String
  | [], r, used, acc => (acc, r, used)
  | m :: rest, r, used, acc =>
      if r ≤ 0 then (acc, r, used)
      else if used.contains m.modifier then phase1Loop base rest r used acc
      else phase1Loop base rest (r - (m.hits : Int)) (used ++ [m.modifier])
        (acc ++ [toSingleCandidate base m])

/-- Phase 1 of `_create_split_strategy`: sort the pool descending by hits
(stable) and run the greedy loop starting from `remaining = baseHits`. -/
def phase1Result (base : String) (baseHits target : Nat)
    (kwMap entMap : List (String × Nat)) :
    List Candidate × Int × List String :=
  phase1Loop base (sortedPool target kwMap entMap) (baseHits : Int) [] []

/-- The `AND "kw" AND "ent"` pair query of Phase 2. -/
def pairQuery (base kw ent : String) : String :=
  andQuoted (andQuoted base kw) ent

/-- Phase-2 inner loop over entities for a fixed keyword: accept a pair
iff its live hit count lies in `(0, target)`, subtract accepted hits and
break once the remainder drops to ≤ 0. -/
def phase2Inner (oracle : String → Nat) (target : Nat) (base : String)
    (yr : Option (Int × Int)) (kw : String) :
    List String → Int → List Candidate × Int
  | [], r => ([], r)
  | e :: rest, r =>
      let hits := getHitCount oracle (pairQuery base kw e) yr
      if 0 < hits ∧ hits < target then
        if r - (hits : Int) ≤ 0 then
          ([⟨pairQuery base kw e, [kw, e], hits, "combination"⟩], r - (hits : Int))
        else
          let p := phase2Inner oracle target base yr kw rest (r - (hits : Int))
          (⟨pairQuery base kw e, [kw, e], hits, "combination"⟩ :: p.1, p.2)
      else phase2Inner oracle target base yr kw rest r

/-- Phase-2 outer loop over keywords, breaking once the remainder drops
to ≤ 0. -/
def phase2Outer (oracle : String → Nat) (target : Nat) (base : String)
    (yr : Option (Int × Int)) (ents : List String) :
    List String → Int → List Candidate × Int
  | [], r => ([], r)
  | kw :: rest, r =>
      let p := phase2Inner oracle target base yr kw ents r
      if p.2 ≤ 0 then p
      else
        let p2 := phase2Outer oracle target base yr ents rest p.2
        (p.1 ++ p2.1, p2.2)

/-- `[k for k in map if k not in used][:10]`. -/
def unusedTake10 (map : List (String × Nat)) (used : List String) : List String :=
  (((map.map Prod.fst).filter (fun k => !(used.contains k))).take 10)

/-- The used-modifier set after Phase 1. -/
def usedAfterPhase1 (base : String) (baseHits target : Nat)
    (kwMap entMap : List (String × Nat)) : List String :=
  (phase1Result base baseHits target kwMap entMap).2.2

/-- The remaining coverage after Phase 2 (equal to the Phase-1 remainder
when Phase 2 is skipped). -/
def phase2Remaining (oracle : String → Nat) (target : Nat) (base : String)
    (baseHits : Nat) (kwMap entMap : List (String × Nat))
    (yr : Option (Int × Int)) : Int :=
  let pr := phase1Result base baseHits target kwMap entMap
  if 0 < pr.2.1 then
    (phase2Outer oracle target base yr (unusedTake10 entMap pr.2.2)
      (unusedTake10 kwMap pr.2.2) pr.2.1).2
  else pr.2.1

/-- `['NOT "<mod>"' for mod in list(used_modifiers)[:5]]`. CPython
iterates `set` in unspecified order; the used set is modelled in
insertion order. -/
def exclusionMods (used : List String) : List String :=
  (used.take 5).map (fun m => "NOT \"" ++ m ++ "\"")

/-- The Phase-3 exclusion query string. -/
def exclusionQuery (base : String) (used : List String) : String :=
  base ++ " " ++ String.intercalate " " (exclusionMods used)

/-- Phase 3: when coverage is still incomplete, one exclusion query over
at most 5 used modifiers, accepted iff its hit count is positive (no
upper bound). -/
def phase3 (oracle : String → Nat) (base : String) (yr : Option (Int × Int))
    (used : List String) (r : Int) : List Candidate :=
  if 0 < r then
    let hits := getHitCount oracle (exclusionQuery base used) yr
    if 0 < hits then
      [⟨exclusionQuery base used, exclusionMods used, hits, "exclusion"⟩]
    else []
  else []

/-- `ExhaustiveQuerySplitter._create_split_strategy`: Phase 1 singles,
then (only if coverage is incomplete) Phase 2 combinations over the
first 10 unused keywords × first 10 unused entities, then the Phase 3
exclusion fallback. -/
def createSplitStrategy (oracle : String → Nat) (target : Nat) (base : String)
    (baseHits : Nat) (kwMap entMap : List (String × Nat))
    (yr : Option (Int × Int)) : List Candidate :=
  let pr := phase1Result base baseHits target kwMap entMap
  let p2 :=
    if 0 < pr.2.1 then
      phase2Outer oracle target base yr (unusedTake10 entMap pr.2.2)
        (unusedTake10 kwMap pr.2.2) pr.2.1
    else ([], pr.2.1)
  pr.1 ++ p2.1 ++ phase3 oracle base yr pr.2.2 p2.2

/-! ## Executor and coverage verifier -/

/-- A `FinalQueryRecord` as produced by `_execute_splits`. -/
structure FinalRecord where
  id : Nat
  query : String
  modifiers : List String
  kind : String
  expectedHits : Nat
  actualHits : Nat
deriving DecidableEq, Repr

/-- `_execute_splits`: re-measure every candidate (year range is not
reapplied at this stage) and assign 1-based ids in order. -/
def executeSplits (oracle : String → Nat) (strategy : List Candidate) :
    List FinalRecord :=
  (strategy.enum).map (fun p =>
    ⟨p.1 + 1, p.2.query, p.2.modifiers, p.2.kind, p.2.expectedHits,
     getHitCount oracle p.2.query none⟩)

/-- Python `max(list)` guarded by `if list else 0`. -/
def pyMax : List Nat → Nat
  | [] => 0
  | x :: xs => xs.foldl max x

/-- Python `min(list)` guarded by `if list else 0`. -/
def pyMin : List Nat → Nat
  | [] => 0
  | x :: xs => xs.foldl min x

/-- The statistics dictionary of `_verify_coverage`. -/
structure CoverageStats where
  baseHits : Nat
  totalCoverage : Nat
  coveragePercentage : ℚ
  queryCount : Nat
  avgHitsPerQuery : ℚ
  queriesUnderTarget : Nat
  largestQuery : Nat
  smallestQuery : Nat
deriving DecidableEq, Repr

/-- `ExhaustiveQuerySplitter._verify_coverage`. -/
def verifyCoverage (target : Nat) (queries : List FinalRecord)
    (baseHits : Nat) : CoverageStats :=
  let totalCoverage := (queries.map (fun q => q.actualHits)).sum
  { baseHits := baseHits
    totalCoverage := totalCoverage
    coveragePercentage :=
      if 0 < baseHits then (totalCoverage : ℚ) / (baseHits : ℚ) * 100 else 0
    queryCount := queries.length
    avgHitsPerQuery :=
      if queries.isEmpty then 0 else (totalCoverage : ℚ) / (queries.length : ℚ)
    queriesUnderTarget := (queries.filter (fun q => decide (q.actualHits < target))).length
    largestQuery := if queries.isEmpty then 0 else pyMax (queries.map (fun q => q.actualHits))
    smallestQuery := if queries.isEmpty then 0 else pyMin (queries.map (fun q => q.actualHits)) }

/-! ## Top-level session (`split_exhaustively`) -/

/-- The two result shapes returned by `split_exhaustively`: the early
`status: complete` dictionary, or the full session results. -/
inductive SplitResult where
  | complete (totalHits : Nat) (queries : List (String × Nat)) (coverage : ℚ)
  | full (baseHits : Nat) (finalQueries : List FinalRecord) (stats : CoverageStats)
deriving DecidableEq, Repr

/-- `ExhaustiveQuerySplitter.split_exhaustively` (file output omitted):
measure the base query, return `complete` early when it is already under
the target, otherwise prepare modifiers, build the effectiveness map,
build and execute the strategy, and verify coverage. An uncaught Python
exception is an `Except.error`. -/
def splitExhaustively (oracle : String → Nat) (target : Nat) (base : String)
    (modifiers : List PyTuple × List PyTuple) (yr : Option (Int × Int)) :
    Except String SplitResult :=
  let baseHits := getHitCount oracle base yr
  if baseHits ≤ target then
    .ok (.complete baseHits [(base, baseHits)] 100)
  else do
    let prepared := prepareModifiers modifiers.1 modifiers.2
    let maps ← buildModifierMap oracle base prepared.1 prepared.2 yr
    let strategy := createSplitStrategy oracle target base baseHits
      (maps.1.map (fun p => (p.1, p.2.hits)))
      (maps.2.map (fun p => (p.1, p.2.hits))) yr
    let finalQueries := executeSplits oracle strategy
    pure (.full baseHits finalQueries (verifyCoverage target finalQueries baseHits))

/-! ## Hit counter retry loop (`ScholarHitsCounter._count_single_query`) -/

/-- Outcome of one attempt of the `try` block: a successful search with a
first result (hit count estimated), iterator exhaustion, or a raised
exception with its message. -/
inductive AttemptOutcome where
  | success (hits : Nat)
  | stopIteration
  | error (msg : String)
deriving DecidableEq, Repr

/-- The fields of the result dictionary that the retry loop touches,
plus the total units slept in `error_delay` backoffs. -/
structure CountResult where
  hitCount : Nat
  status : String
  errMsg : Option String
  delayUnits : Nat
deriving DecidableEq, Repr

/-- The `while retry_count < max_retries` loop, with `remaining + 1`
attempts still allowed and `attempt` attempts already made. A success or
`StopIteration` breaks; an exception on the last allowed attempt marks
the error, otherwise sleeps `error_delay = 60` units and retries. -/
def countGo (attempts : Nat → AttemptOutcome) :
    Nat → Nat → Nat → CountResult
  | 0, _, delay => ⟨0, "pending", none, delay⟩
  | remaining + 1, attempt, delay =>
      match attempts attempt with
      | .success hits => ⟨hits, "success", none, delay⟩
      | .stopIteration => ⟨0, "success", none, delay⟩
      | .error msg =>
          if remaining = 0 then ⟨0, "error", some msg, delay⟩
          else countGo attempts remaining (attempt + 1) (delay + 60)

/-- `_count_single_query` with `max_retries = 3`, starting from the
`pending` result with `hit_count = 0`. -/
def countSingleQuery (attempts : Nat → AttemptOutcome) : CountResult :=
  countGo attempts 3 0 0

/-- `count_hits`: one result record per query, in order (the outcome of
query `i` is governed by its own attempt stream). -/
def countHits (attemptsFor : Nat → Nat → AttemptOutcome) (queries : List String) :
    List CountResult :=
  (queries.enum).map (fun p => countSingleQuery (attemptsFor p.1))

/-! ## Spec-side characterizations

Independent renderings of the spec's description of the greedy phases,
to be proved equal to the loops above. -/

/-- Drop every pool entry whose modifier text already occurred (in `seen`
or earlier in the list): the effect of the `used_modifiers` skip. -/
def dedupePool (seen : List String) : List PoolMod → List PoolMod
  | [] => []
  | m :: rest =>
      if seen.contains m.modifier then dedupePool seen rest
      else m :: dedupePool (seen ++ [m.modifier]) rest

/-- Greedy prefix: accept entries in order, subtracting hits from the
remaining coverage, and stop once it drops to ≤ 0. -/
def greedyTake : Int → List PoolMod → List PoolMod
  | _, [] => []
  | r, m :: rest => if r ≤ 0 then [] else m :: greedyTake (r - (m.hits : Int)) rest

/-- Total hits of a pool selection. -/
def sumHits (l : List PoolMod) : Int := (l.map (fun m => (m.hits : Int))).sum

/-- The modifiers Phase 1 accepts, per the spec: walk the sorted pool,
drop duplicated texts, and take the greedy prefix against `baseHits`. -/
def phase1Selected (target : Nat) (kwMap entMap : List (String × Nat))
    (baseHits : Nat) : List PoolMod :=
  greedyTake (baseHits : Int) (dedupePool [] (sortedPool target kwMap entMap))

/-- All keyword×entity pairs in Phase-2 visit order (keywords outer,
entities inner). -/
def pairList (K E : List String) : List (String × String) :=
  K.flatMap (fun k => E.map (fun e => (k, e)))

/-- Spec-side Phase 2 as a single pass over the pair list: stop once the
remainder is ≤ 0, accept a pair iff its live hit count is in
`(0, target)`, subtracting accepted hits. -/
def phase2Pairs (oracle : String → Nat) (target : Nat) (base : String)
    (yr : Option (Int × Int)) : List (String × String) → Int → List Candidate
  | [], _ => []
  | p :: rest, r =>
      if r ≤ 0 then []
      else
        let hits := getHitCount oracle (pairQuery base p.1 p.2) yr
        if 0 < hits ∧ hits < target then
          ⟨pairQuery base p.1 p.2, [p.1, p.2], hits, "combination"⟩ ::
            phase2Pairs oracle target base yr rest (r - (hits : Int))
        else phase2Pairs oracle target base yr rest r

/-- Total expected hits of a candidate list. -/
def sumC (l : List Candidate) : Int := (l.map (fun c => (c.expectedHits : Int))).sum

/-! ## Stable descending sort: permutation, order, stability -/

theorem insDesc_perm {α β : Type} [LinearOrder β] (key : α → β) (m : α)
    (l : List α) : (insDesc key m l).Perm (m :: l) := by
  induction l with
  | nil => simp [insDesc]
  | cons x xs ih =>
      by_cases h : key x ≤ key m
      · simp [insDesc, h]
      · simp only [insDesc, if_neg h]
        exact (ih.cons x).trans (List.Perm.swap m x xs)

theorem sortDesc_perm {α β : Type} [LinearOrder β] (key : α → β)
    (l : List α) : (sortDesc key l).Perm l := by
  induction l with
  | nil => simp [sortDesc]
  | cons x xs ih =>
      exact (insDesc_perm key x (sortDesc key xs)).trans (ih.cons x)

theorem insDesc_sorted {α β : Type} [LinearOrder β] (key : α → β) (m : α) :
    ∀ {l : List α}, l.Pairwise (fun a b => key b ≤ key a) →
      (insDesc key m l).Pairwise (fun a b => key b ≤ key a) := by
  intro l
  induction l with
  | nil => intro _; simp [insDesc]
  | cons x xs ih =>
      intro hl
      rcases List.pairwise_cons.mp hl with ⟨hx, hxs⟩
      by_cases h : key x ≤ key m
      · simp only [insDesc, if_pos h]
        refine List.pairwise_cons.mpr ⟨?_, hl⟩
        intro y hy
        rcases List.mem_cons.mp hy with hy | hy
        · subst hy; exact h
        · exact le_trans (hx y hy) h
      · simp only [insDesc, if_neg h]
        refine List.pairwise_cons.mpr ⟨?_, ih hxs⟩
        intro y hy
        rcases List.mem_cons.mp ((insDesc_perm key m xs).mem_iff.mp hy) with hy | hy
        · subst hy; exact le_of_not_le h
        · exact hx y hy

theorem sortDesc_sorted {α β : Type} [LinearOrder β] (key : α → β)
    (l : List α) : (sortDesc key l).Pairwise (fun a b => key b ≤ key a) := by
  induction l with
  | nil => simp [sortDesc]
  | cons x xs ih => exact insDesc_sorted key x ih

theorem insDesc_filter_eq {α β : Type} [LinearOrder β] [DecidableEq β]
    (key : α → β) (m : α) (k : β) (hk : key m = k) (l : List α) :
    (insDesc key m l).filter (fun x => decide (key x = k)) =
      m :: l.filter (fun x => decide (key x = k)) := by
  induction l with
  | nil => simp [insDesc, List.filter, hk]
  | cons x xs ih =>
      by_cases h : key x ≤ key m
      · simp only [insDesc, if_pos h]
        simp [List.filter_cons, hk]
      · have hxk : ¬ (key x = k) := by
          intro he
          exact h (le_of_eq (he.trans hk.symm))
        simp [insDesc, if_neg h, List.filter_cons, hxk, ih]

theorem insDesc_filter_ne {α β : Type} [LinearOrder β] [DecidableEq β]
    (key : α → β) (m : α) (k : β) (hk : key m ≠ k) (l : List α) :
    (insDesc key m l).filter (fun x => decide (key x = k)) =
      l.filter (fun x => decide (key x = k)) := by
  induction l with
  | nil => simp [insDesc, List.filter, hk]
  | cons x xs ih =>
      by_cases h : key x ≤ key m
      · simp [insDesc, if_pos h, List.filter_cons, hk]
      · simp [insDesc, if_neg h, List.filter_cons, ih]

/-- Stability of the descending sort: the entries carrying any fixed key
value appear in the output exactly as they appear in the input. -/
theorem sortDesc_stable {α β : Type} [LinearOrder β] [DecidableEq β]
    (key : α → β) (l : List α) (k : β) :
    (sortDesc key l).filter (fun x => decide (key x = k)) =
      l.filter (fun x => decide (key x = k)) := by
  induction l with
  | nil => simp [sortDesc]
  | cons x xs ih =>
      show (insDesc key x (sortDesc key xs)).filter _ = _
      by_cases hx : key x = k
      · rw [insDesc_filter_eq key x k hx, ih, List.filter_cons]
        simp [hx]
      · rw [insDesc_filter_ne key x k hx, ih, List.filter_cons]
        simp [hx]

/-! ## Phase 1: loop ↔ dedupe + greedy prefix -/

theorem greedyTake_nonpos {r : Int} (hr : r ≤ 0) (l : List PoolMod) :
    greedyTake r l = [] := by
  cases l with
  | nil => rfl
  | cons m rest => simp [greedyTake, hr]

theorem sumHits_cons (m : PoolMod) (l : List PoolMod) :
    sumHits (m :: l) = (m.hits : Int) + sumHits l := by
  simp [sumHits]

/-- The Phase-1 loop equals: drop already-used modifier texts, take the
greedy prefix, emit one `single` candidate per accepted entry, subtract
the accepted hits, and extend the used set with the accepted texts. -/
theorem phase1Loop_eq (base : String) :
    ∀ (mods : List PoolMod) (r : Int) (used : List String) (acc : List Candidate),
      phase1Loop base mods r used acc =
        (acc ++ (greedyTake r (dedupePool used mods)).map (toSingleCandidate base),
         r - sumHits (greedyTake r (dedupePool used mods)),
         used ++ (greedyTake r (dedupePool used mods)).map (fun m => m.modifier)) := by
  intro mods
  induction mods with
  | nil =>
      intro r used acc
      simp [phase1Loop, dedupePool, greedyTake, sumHits]
  | cons m rest ih =>
      intro r used acc
      by_cases hr : r ≤ 0
      · rw [greedyTake_nonpos hr]
        simp [phase1Loop, hr, sumHits]
      · by_cases hu : m.modifier ∈ used
        · have h1 : phase1Loop base (m :: rest) r used acc =
              phase1Loop base rest r used acc := by
            simp [phase1Loop, hr, hu]
          have h2 : dedupePool used (m :: rest) = dedupePool used rest := by
            simp [dedupePool, hu]
          rw [h1, h2, ih]
        · have h1 : phase1Loop base (m :: rest) r used acc =
              phase1Loop base rest (r - (m.hits : Int)) (used ++ [m.modifier])
                (acc ++ [toSingleCandidate base m]) := by
            simp [phase1Loop, hr, hu]
          have h2 : dedupePool used (m :: rest) =
              m :: dedupePool (used ++ [m.modifier]) rest := by
            simp [dedupePool, hu]
          have h3 : greedyTake r (m :: dedupePool (used ++ [m.modifier]) rest) =
              m :: greedyTake (r - (m.hits : Int))
                (dedupePool (used ++ [m.modifier]) rest) := by
            simp [greedyTake, hr]
          rw [h1, ih, h2, h3]
          simp [sumHits_cons, sub_sub]

/-! ## Phase 2: nested loops ↔ single pass over the pair list -/

theorem phase2Pairs_nonpos (oracle : String → Nat) (target : Nat) (base : String)
    (yr : Option (Int × Int)) {r : Int} (hr : r ≤ 0) (l : List (String × String)) :
    phase2Pairs oracle target base yr l r = [] := by
  cases l with
  | nil => rfl
  | cons p rest => simp [phase2Pairs, hr]

theorem sumC_cons (c : Candidate) (l : List Candidate) :
    sumC (c :: l) = (c.expectedHits : Int) + sumC l := by
  simp [sumC]

theorem sumC_append (l1 l2 : List Candidate) :
    sumC (l1 ++ l2) = sumC l1 + sumC l2 := by
  simp [sumC]

theorem phase2Pairs_append (oracle : String → Nat) (target : Nat) (base : String)
    (yr : Option (Int × Int)) :
    ∀ (l1 l2 : List (String × String)) (r : Int),
      phase2Pairs oracle target base yr (l1 ++ l2) r =
        phase2Pairs oracle target base yr l1 r ++
          phase2Pairs oracle target base yr l2
            (r - sumC (phase2Pairs oracle target base yr l1 r)) := by
  intro l1
  induction l1 with
  | nil => intro l2 r; simp [phase2Pairs, sumC]
  | cons p rest ih =>
      intro l2 r
      by_cases hr : r ≤ 0
      · rw [List.cons_append, phase2Pairs_nonpos oracle target base yr hr,
          phase2Pairs_nonpos oracle target base yr hr]
        simp [sumC, phase2Pairs_nonpos oracle target base yr hr]
      · by_cases hh : 0 < getHitCount oracle (pairQuery base p.1 p.2) yr ∧
            getHitCount oracle (pairQuery base p.1 p.2) yr < target
        · rw [List.cons_append]
          simp only [phase2Pairs, if_neg hr, if_pos hh]
          rw [ih, sumC_cons]
          simp [sub_sub]
        · rw [List.cons_append]
          simp only [phase2Pairs, if_neg hr, if_neg hh]
          exact ih l2 r

theorem phase2Inner_eq (oracle : String → Nat) (target : Nat) (base : String)
    (yr : Option (Int × Int)) (kw : String) :
    ∀ (ents : List String) (r : Int), 0 < r →
      phase2Inner oracle target base yr kw ents r =
        (phase2Pairs oracle target base yr (ents.map (fun e => (kw, e))) r,
         r - sumC (phase2Pairs oracle target base yr
            (ents.map (fun e => (kw, e))) r)) := by
  intro ents
  induction ents with
  | nil => intro r hr; simp [phase2Inner, phase2Pairs, sumC]
  | cons e rest ih =>
      intro r hr
      have hrn : ¬ r ≤ 0 := not_le.mpr hr
      by_cases hh : 0 < getHitCount oracle (pairQuery base kw e) yr ∧
          getHitCount oracle (pairQuery base kw e) yr < target
      · by_cases hstop :
            r - (getHitCount oracle (pairQuery base kw e) yr : Int) ≤ 0
        · simp only [phase2Inner, List.map_cons, phase2Pairs, if_neg hrn,
            if_pos hh, if_pos hstop]
          rw [phase2Pairs_nonpos oracle target base yr hstop]
          simp [sumC]
        · have hpos : 0 < r - (getHitCount oracle (pairQuery base kw e) yr : Int) := by
            omega
          simp only [phase2Inner, List.map_cons, phase2Pairs, if_neg hrn,
            if_pos hh, if_neg hstop]
          rw [ih _ hpos]
          simp [sumC_cons, sub_sub]
      · simp only [phase2Inner, List.map_cons, phase2Pairs, if_neg hrn, if_neg hh]
        exact ih r hr

theorem phase2Outer_eq (oracle : String → Nat) (target : Nat) (base : String)
    (yr : Option (Int × Int)) (ents : List String) :
    ∀ (kws : List String) (r : Int), 0 < r →
      phase2Outer oracle target base yr ents kws r =
        (phase2Pairs oracle target base yr (pairList kws ents) r,
         r - sumC (phase2Pairs oracle target base yr (pairList kws ents) r)) := by
  intro kws
  induction kws with
  | nil => intro r hr; simp [phase2Outer, pairList, phase2Pairs, sumC]
  | cons kw rest ih =>
      intro r hr
      have hpl : pairList (kw :: rest) ents =
          ents.map (fun e => (kw, e)) ++ pairList rest ents := by
        simp [pairList]
      rw [hpl, phase2Pairs_append]
      simp only [phase2Outer]
      rw [phase2Inner_eq oracle target base yr kw ents r hr]
      by_cases hstop : r - sumC (phase2Pairs oracle target base yr
          (ents.map (fun e => (kw, e))) r) ≤ 0
      · rw [if_pos hstop,
          phase2Pairs_nonpos oracle target base yr hstop (pairList rest ents)]
        simp
      · rw [if_neg hstop, ih _ (by omega)]
        simp [sumC_append, sub_sub]

/-! ## Membership and kind lemmas -/

theorem mem_greedyTake {x : PoolMod} :
    ∀ {r : Int} {l : List PoolMod}, x ∈ greedyTake r l → x ∈ l := by
  intro r l
  induction l generalizing r with
  | nil => intro h; simp [greedyTake] at h
  | cons m rest ih =>
      intro h
      simp only [greedyTake] at h
      split at h
      · simp at h
      · rcases List.mem_cons.mp h with h | h
        · exact List.mem_cons.mpr (Or.inl h)
        · exact List.mem_cons.mpr (Or.inr (ih h))

theorem mem_dedupePool {x : PoolMod} :
    ∀ {seen : List String} {l : List PoolMod}, x ∈ dedupePool seen l → x ∈ l := by
  intro seen l
  induction l generalizing seen with
  | nil => intro h; simp [dedupePool] at h
  | cons m rest ih =>
      intro h
      simp only [dedupePool] at h
      split at h
      · exact List.mem_cons.mpr (Or.inr (ih h))
      · rcases List.mem_cons.mp h with h | h
        · exact List.mem_cons.mpr (Or.inl h)
        · exact List.mem_cons.mpr (Or.inr (ih h))

theorem mem_buildPool {m : PoolMod} {target : Nat} {kwMap entMap : List (String × Nat)}
    (h : m ∈ buildPool target kwMap entMap) :
    (0 < m.hits ∧ m.hits < target) ∧
      ((m.modifier, m.hits) ∈ kwMap ∨ (m.modifier, m.hits) ∈ entMap) := by
  rcases List.mem_append.mp h with h' | h' <;>
  · rcases List.mem_map.mp h' with ⟨p, hp, he⟩
    rcases List.mem_filter.mp hp with ⟨hmem, hcond⟩
    have hc := of_decide_eq_true hcond
    subst he
    simp only []
    exact ⟨⟨hc.2, hc.1⟩, by simp [hmem]⟩

theorem phase2Pairs_kind (oracle : String → Nat) (target : Nat) (base : String)
    (yr : Option (Int × Int)) :
    ∀ (l : List (String × String)) (r : Int) (c : Candidate),
      c ∈ phase2Pairs oracle target base yr l r → c.kind = "combination" := by
  intro l
  induction l with
  | nil => intro r c hc; simp [phase2Pairs] at hc
  | cons p rest ih =>
      intro r c hc
      by_cases hr : r ≤ 0
      · simp [phase2Pairs, hr] at hc
      · by_cases hh : 0 < getHitCount oracle (pairQuery base p.1 p.2) yr ∧
            getHitCount oracle (pairQuery base p.1 p.2) yr < target
        · simp only [phase2Pairs, if_neg hr, if_pos hh, List.mem_cons] at hc
          rcases hc with hc | hc
          · subst hc; rfl
          · exact ih _ c hc
        · simp only [phase2Pairs, if_neg hr, if_neg hh] at hc
          exact ih _ c hc

theorem phase2Inner_kind (oracle : String → Nat) (target : Nat) (base : String)
    (yr : Option (Int × Int)) (kw : String) :
    ∀ (ents : List String) (r : Int) (c : Candidate),
      c ∈ (phase2Inner oracle target base yr kw ents r).1 →
      c.kind = "combination" := by
  intro ents
  induction ents with
  | nil => intro r c hc; simp [phase2Inner] at hc
  | cons e rest ih =>
      intro r c hc
      by_cases hh : 0 < getHitCount oracle (pairQuery base kw e) yr ∧
          getHitCount oracle (pairQuery base kw e) yr < target
      · by_cases hstop : r - (getHitCount oracle (pairQuery base kw e) yr : Int) ≤ 0
        · simp only [phase2Inner, if_pos hh, if_pos hstop, List.mem_singleton] at hc
          subst hc; rfl
        · simp only [phase2Inner, if_pos hh, if_neg hstop, List.mem_cons] at hc
          rcases hc with hc | hc
          · subst hc; rfl
          · exact ih _ c hc
      · simp only [phase2Inner, if_neg hh] at hc
        exact ih _ c hc

theorem phase2Outer_kind (oracle : String → Nat) (target : Nat) (base : String)
    (yr : Option (Int × Int)) (ents : List String) :
    ∀ (kws : List String) (r : Int) (c : Candidate),
      c ∈ (phase2Outer oracle target base yr ents kws r).1 →
      c.kind = "combination" := by
  intro kws
  induction kws with
  | nil => intro r c hc; simp [phase2Outer] at hc
  | cons kw rest ih =>
      intro r c hc
      by_cases hstop : (phase2Inner oracle target base yr kw ents r).2 ≤ 0
      · simp only [phase2Outer, if_pos hstop] at hc
        exact phase2Inner_kind oracle target base yr kw ents r c hc
      · simp only [phase2Outer, if_neg hstop, List.mem_append] at hc
        rcases hc with hc | hc
        · exact phase2Inner_kind oracle target base yr kw ents r c hc
        · exact ih _ c hc

theorem phase3_kind (oracle : String → Nat) (base : String)
    (yr : Option (Int × Int)) (used : List String) (r : Int) :
    ∀ c ∈ phase3 oracle base yr used r, c.kind = "exclusion" := by
  intro c hc
  unfold phase3 at hc
  by_cases hr : 0 < r
  · rw [if_pos hr] at hc
    by_cases hh : 0 < getHitCount oracle (exclusionQuery base used) yr
    · rw [if_pos hh] at hc
      rcases List.mem_singleton.mp hc with rfl
      rfl
    · rw [if_neg hh] at hc
      simp at hc
  · rw [if_neg hr] at hc
    simp at hc

/-! ## Claim theorems -/

/-- C1: when the initially measured base hit count is at most the target
size, `split_exhaustively` returns the `complete` result holding exactly
the unmodified base query paired with that hit count and coverage 100.0,
and the result is independent of the supplied modifier lists (so no
modifier testing, strategy building or split execution takes place). -/
theorem split_complete_when_under_target (oracle : String → Nat) (target : Nat)
    (base : String) (mods mods' : List PyTuple × List PyTuple)
    (yr : Option (Int × Int))
    (h : getHitCount oracle base yr ≤ target) :
    splitExhaustively oracle target base mods yr =
      .ok (.complete (getHitCount oracle base yr)
        [(base, getHitCount oracle base yr)] 100) ∧
    splitExhaustively oracle target base mods yr =
      splitExhaustively oracle target base mods' yr := by
  constructor
  · simp [splitExhaustively, h]
  · simp [splitExhaustively, h]

/-- C1 witness: a constant 5-hit oracle with target 900. -/
theorem split_complete_when_under_target_witness :
    getHitCount (fun _ => 5) "Q" none ≤ 900 ∧
    splitExhaustively (fun _ => 5) 900 "Q" ([], []) none =
      .ok (.complete (getHitCount (fun _ => 5) "Q" none)
        [("Q", getHitCount (fun _ => 5) "Q" none)] 100) :=
  ⟨by decide,
   (split_complete_when_under_target (fun _ => 5) 900 "Q" ([], [])
      ([⟨"a", [.q 1]⟩], []) none (by decide)).1⟩

/-- C8 counterexample: `_get_hit_count` renders the year range
`(2020, 2020)` as `after:2020 before:2020` (no ±1 adjustment), so the
claimed boundary arithmetic does not hold at every rendering site; and
`_create_query_dict` appends the modifier strings `m1`, `m2` verbatim,
without quoting them. -/
theorem year_rendering_counterexample :
    getHitCountQuery "Q" (some (2020, 2020)) = "Q after:2020 before:2020" ∧
    "Q after:2020 before:2020" ≠ "Q after:2019 before:2021" ∧
    createQueryString "Q" ["m1", "m2"] (some (2020, 2020)) =
      "(Q) m1 m2 after:2019 before:2021" ∧
    "(Q) m1 m2 after:2019 before:2021" ≠
      "(Q) \"m1\" \"m2\" after:2019 before:2021" := by
  exact ⟨rfl, by decide, rfl, by decide⟩

/-- C8 amended: `_create_query_dict` embeds
`after:<start-1> before:<end+1>` after the base query and the modifier
strings (which are appended verbatim, carrying quotes only when the
modifier string itself does), so the spec's example string arises for
the pre-quoted modifiers `"m1"`, `"m2"`; `_get_hit_count`, by contrast,
appends `after:<start> before:<end>` with no boundary adjustment. -/
theorem year_rendering_amended (base q : String) (mods : List String) (s e : Int) :
    createQueryString base mods (some (s, e)) =
      String.intercalate " " (("(" ++ base ++ ")") :: mods) ++
        " after:" ++ toString (s - 1) ++ " before:" ++ toString (e + 1) ∧
    createQueryString "Q" ["\"m1\"", "\"m2\""] (some (2020, 2020)) =
      "(Q) \"m1\" \"m2\" after:2019 before:2021" ∧
    getHitCountQuery q (some (s, e)) =
      q ++ " after:" ++ toString s ++ " before:" ++ toString e := by
  refine ⟨?_, rfl, rfl⟩
  by_cases h : s = e
  · subst h; simp [createQueryString]
  · simp [createQueryString, h]

/-- C4: `_build_modifier_map` computes the reduction rate as
`1 - hits / baseHits` against a freshly re-queried base count with no
guard: when that count is 0 the division raises `ZeroDivisionError`
instead of producing a sentinel. With a positive base count the rate is
`1 - hits / baseHits` as specified (here `1 - 5/10`). -/
theorem reduction_rate_divzero_bug :
    buildModifierMap (fun _ => 0) "B" [("k", .q 1)] [] none =
      .error "ZeroDivisionError" ∧
    reductionRate 5 10 = .ok (1 - (5 : ℚ) / 10) ∧
    reductionRate 7 0 = .error "ZeroDivisionError" := by
  exact ⟨rfl, rfl, rfl⟩

/-- C2: the Phase-1 pool order is a stable descending sort by hits over
the pool (keywords before entities, each in effectiveness-map order):
the sorted pool is a permutation of the pool, weakly descending in hits,
and the entries at any fixed hit count keep their pool order. The loop
accepts exactly the greedy prefix of the deduplicated sorted pool: each
acceptance emits a `single` candidate `base AND "modifier"`, already-used
modifiers are skipped, accepted hits are subtracted from the remaining
coverage initialised to `baseHits`, and acceptance stops once it is ≤ 0. -/
theorem phase1_greedy_spec (target : Nat) (kwMap entMap : List (String × Nat))
    (base : String) (baseHits : Nat) :
    (sortedPool target kwMap entMap).Perm (buildPool target kwMap entMap) ∧
    (sortedPool target kwMap entMap).Pairwise (fun a b => b.hits ≤ a.hits) ∧
    (∀ h : Nat,
      (sortedPool target kwMap entMap).filter (fun m => decide (m.hits = h)) =
        (buildPool target kwMap entMap).filter (fun m => decide (m.hits = h))) ∧
    phase1Result base baseHits target kwMap entMap =
      ((phase1Selected target kwMap entMap baseHits).map (toSingleCandidate base),
       (baseHits : Int) - sumHits (phase1Selected target kwMap entMap baseHits),
       (phase1Selected target kwMap entMap baseHits).map (fun m => m.modifier)) := by
  refine ⟨sortDesc_perm _ _, sortDesc_sorted _ _,
    fun h => sortDesc_stable _ _ h, ?_⟩
  rw [phase1Result, phase1Loop_eq]
  simp [phase1Selected]

/-- Stable order of tied hit counts, concretely: two keywords and an
entity tied at 5 hits stay in keywords-then-entities pool order. -/
example :
    sortedPool 900 [("k1", 5), ("k2", 7), ("k3", 5)] [("e1", 5)] =
      [⟨"keyword", "k2", 7⟩, ⟨"keyword", "k1", 5⟩, ⟨"keyword", "k3", 5⟩,
       ⟨"entity", "e1", 5⟩] := by decide

theorem prepKeyword_eq_some {item : PyTuple} {p : String × PyVal}
    (h : prepKeyword item = some p) :
    p = (item.text, keywordScore item.rest) ∧ wordCount item.text ≤ 2 := by
  unfold prepKeyword at h
  by_cases h1 : item.rest.length ≥ 1
  · rw [if_pos h1] at h
    by_cases h2 : wordCount item.text ≤ 2
    · rw [if_pos h2] at h
      exact ⟨(Option.some_inj.mp h).symm, h2⟩
    · rw [if_neg h2] at h
      exact absurd h (by simp)
  · rw [if_neg h1] at h
    exact absurd h (by simp)

theorem prepEntity_of_ne_nil {item : PyTuple} (h : item.rest ≠ []) :
    ∃ out, prepEntity item = some out ∧ out.text = item.text := by
  have h1 : item.rest.length ≥ 1 := by
    cases hre : item.rest with
    | nil => exact absurd hre h
    | cons a l => simp [hre]
  unfold prepEntity
  by_cases h2 : item.rest.length = 2
  · exact ⟨⟨item.text, [item.rest.getD 0 (.s ""), item.rest.getD 1 (.q 0)]⟩,
      by rw [if_pos h1, if_pos h2], rfl⟩
  · exact ⟨⟨item.text, [item.rest.getD 0 (.q 0)]⟩,
      by rw [if_pos h1, if_neg h2], rfl⟩

theorem prepEntity_of_nil {item : PyTuple} (h : item.rest = []) :
    prepEntity item = none := by
  unfold prepEntity
  rw [if_neg (by simp [h])]

/-- C10: modifier preparation filters keywords by phrase length (at most
two words survive) but applies no such filter to entities: every entity
tuple of length ≥ 2 reaches the prepared entity list, whatever its word
count, and the prepared entity list has one entry per such tuple. -/
theorem prepare_modifiers_word_filter (keywords entities : List PyTuple) :
    (∀ p ∈ (prepareModifiers keywords entities).1, wordCount p.1 ≤ 2) ∧
    (∀ item ∈ keywords, item.rest ≠ [] → wordCount item.text ≤ 2 →
      (item.text, keywordScore item.rest) ∈ (prepareModifiers keywords entities).1) ∧
    (∀ item ∈ entities, item.rest ≠ [] →
      ∃ out ∈ (prepareModifiers keywords entities).2, out.text = item.text) ∧
    (prepareModifiers keywords entities).2.length =
      (entities.filter (fun item => !item.rest.isEmpty)).length := by
  refine ⟨?_, ?_, ?_, ?_⟩
  · intro p hp
    rcases List.mem_filterMap.mp hp with ⟨item, _, he⟩
    rcases prepKeyword_eq_some he with ⟨hp1, hp2⟩
    rw [hp1]
    exact hp2
  · intro item hi h1 h2
    refine List.mem_filterMap.mpr ⟨item, hi, ?_⟩
    have hl : item.rest.length ≥ 1 := by
      cases hre : item.rest with
      | nil => exact absurd hre h1
      | cons a l => simp [hre]
    unfold prepKeyword
    rw [if_pos hl, if_pos h2]
  · intro item hi h1
    rcases prepEntity_of_ne_nil h1 with ⟨out, ho, ht⟩
    exact ⟨out, List.mem_filterMap.mpr ⟨item, hi, ho⟩, ht⟩
  · show (entities.filterMap prepEntity).length = _
    induction entities with
    | nil => rfl
    | cons item rest ih =>
        by_cases h1 : item.rest = []
        · rw [List.filterMap_cons, prepEntity_of_nil h1, List.filter_cons]
          simp [h1, ih]
        · rcases prepEntity_of_ne_nil h1 with ⟨out, ho, _⟩
          rw [List.filterMap_cons, ho, List.filter_cons]
          simp [h1, ih]

/-- C10 witness: a three-word entity passes through while a three-word
keyword is dropped. -/
theorem prepare_modifiers_word_filter_witness :
    (⟨"x y z", [.s "T", .q 2]⟩ : PyTuple).rest ≠ [] ∧
    (∃ out ∈ (prepareModifiers [⟨"a b c", [.q 1]⟩]
        [⟨"x y z", [.s "T", .q 2]⟩]).2, out.text = "x y z") ∧
    (prepareModifiers [⟨"a b c", [.q 1]⟩] [⟨"x y z", [.s "T", .q 2]⟩]).1 = [] :=
  ⟨by decide,
   (prepare_modifiers_word_filter [⟨"a b c", [.q 1]⟩]
      [⟨"x y z", [.s "T", .q 2]⟩]).2.2.1 ⟨"x y z", [.s "T", .q 2]⟩
      (by decide) (by decide),
   by decide⟩

/-- C9: a hit-count request failing with exceptions is retried up to 3
attempts with a fixed 60-unit sleep after each non-final failure; only
when all 3 attempts fail is the result marked `error`, carrying the last
captured message and hit count 0; a `StopIteration` is a zero-hit
`success`; every call returns a record with status `success` or `error`,
and `count_hits` produces one record per query. -/
theorem count_single_query_retry_spec (attempts : Nat → AttemptOutcome) :
    ((countSingleQuery attempts).status = "success" ∨
      (countSingleQuery attempts).status = "error") ∧
    (∀ m0 m1 m2, attempts 0 = .error m0 → attempts 1 = .error m1 →
        attempts 2 = .error m2 →
        countSingleQuery attempts = ⟨0, "error", some m2, 120⟩) ∧
    (∀ m0 h, attempts 0 = .error m0 → attempts 1 = .success h →
        countSingleQuery attempts = ⟨h, "success", none, 60⟩) ∧
    (∀ m0 m1, attempts 0 = .error m0 → attempts 1 = .error m1 →
        attempts 2 = .stopIteration →
        countSingleQuery attempts = ⟨0, "success", none, 120⟩) ∧
    (attempts 0 = .stopIteration →
        countSingleQuery attempts = ⟨0, "success", none, 0⟩) ∧
    (∀ h, attempts 0 = .success h →
        countSingleQuery attempts = ⟨h, "success", none, 0⟩) ∧
    (∀ (f : Nat → Nat → AttemptOutcome) (queries : List String),
        (countHits f queries).length = queries.length) := by
  refine ⟨?_, ?_, ?_, ?_, ?_, ?_, ?_⟩
  · cases h0 : attempts 0 with
    | success hits => left; simp [countSingleQuery, countGo, h0]
    | stopIteration => left; simp [countSingleQuery, countGo, h0]
    | error m0 =>
        cases h1 : attempts 1 with
        | success hits => left; simp [countSingleQuery, countGo, h0, h1]
        | stopIteration => left; simp [countSingleQuery, countGo, h0, h1]
        | error m1 =>
            cases h2 : attempts 2 with
            | success hits => left; simp [countSingleQuery, countGo, h0, h1, h2]
            | stopIteration => left; simp [countSingleQuery, countGo, h0, h1, h2]
            | error m2 => right; simp [countSingleQuery, countGo, h0, h1, h2]
  · intro m0 m1 m2 h0 h1 h2
    simp [countSingleQuery, countGo, h0, h1, h2]
  · intro m0 h h0 h1
    simp [countSingleQuery, countGo, h0, h1]
  · intro m0 m1 h0 h1 h2
    simp [countSingleQuery, countGo, h0, h1, h2]
  · intro h0
    simp [countSingleQuery, countGo, h0]
  · intro h h0
    simp [countSingleQuery, countGo, h0]
  · intro f queries
    simp [countHits]

/-- C9 witness: an always-failing oracle exhausts the 3 attempts, sleeps
120 units in total, and ends in an `error` record with the message. -/
theorem count_single_query_retry_spec_witness :
    countSingleQuery (fun _ => .error "boom") =
      ⟨0, "error", some "boom", 120⟩ :=
  (count_single_query_retry_spec (fun _ => .error "boom")).2.1
    "boom" "boom" "boom" rfl rfl rfl

theorem le_foldl_max : ∀ (xs : List Nat) (a x : Nat),
    (x ≤ a ∨ x ∈ xs) → x ≤ xs.foldl max a := by
  intro xs
  induction xs with
  | nil =>
      intro a x h
      rcases h with h | h
      · exact h
      · simp at h
  | cons y ys ih =>
      intro a x h
      show x ≤ ys.foldl max (max a y)
      rcases h with h | h
      · exact ih _ _ (Or.inl (h.trans (le_max_left a y)))
      · rcases List.mem_cons.mp h with rfl | h
        · exact ih _ _ (Or.inl (le_max_right a x))
        · exact ih _ _ (Or.inr h)

theorem foldl_max_mem : ∀ (xs : List Nat) (a : Nat),
    xs.foldl max a = a ∨ xs.foldl max a ∈ xs := by
  intro xs
  induction xs with
  | nil => intro a; exact Or.inl rfl
  | cons y ys ih =>
      intro a
      show ys.foldl max (max a y) = a ∨ _
      rcases ih (max a y) with h | h
      · rcases max_choice a y with hm | hm
        · exact Or.inl (h.trans hm)
        · exact Or.inr (List.mem_cons.mpr (Or.inl (h.trans hm)))
      · exact Or.inr (List.mem_cons.mpr (Or.inr h))

theorem foldl_min_le : ∀ (xs : List Nat) (a x : Nat),
    (a ≤ x ∨ x ∈ xs) → xs.foldl min a ≤ x := by
  intro xs
  induction xs with
  | nil =>
      intro a x h
      rcases h with h | h
      · exact h
      · simp at h
  | cons y ys ih =>
      intro a x h
      show ys.foldl min (min a y) ≤ x
      rcases h with h | h
      · exact ih _ _ (Or.inl ((min_le_left a y).trans h))
      · rcases List.mem_cons.mp h with rfl | h
        · exact ih _ _ (Or.inl (min_le_right a x))
        · exact ih _ _ (Or.inr h)

theorem foldl_min_mem : ∀ (xs : List Nat) (a : Nat),
    xs.foldl min a = a ∨ xs.foldl min a ∈ xs := by
  intro xs
  induction xs with
  | nil => intro a; exact Or.inl rfl
  | cons y ys ih =>
      intro a
      show ys.foldl min (min a y) = a ∨ _
      rcases ih (min a y) with h | h
      · rcases min_choice a y with hm | hm
        · exact Or.inl (h.trans hm)
        · exact Or.inr (List.mem_cons.mpr (Or.inl (h.trans hm)))
      · exact Or.inr (List.mem_cons.mpr (Or.inr h))

theorem le_pyMax {l : List Nat} {x : Nat} (hx : x ∈ l) : x ≤ pyMax l := by
  cases l with
  | nil => simp at hx
  | cons y ys =>
      show x ≤ ys.foldl max y
      rcases List.mem_cons.mp hx with rfl | h
      · exact le_foldl_max ys x x (Or.inl le_rfl)
      · exact le_foldl_max ys y x (Or.inr h)

theorem pyMax_mem {l : List Nat} (h : l ≠ []) : pyMax l ∈ l := by
  cases l with
  | nil => exact absurd rfl h
  | cons y ys =>
      show ys.foldl max y ∈ y :: ys
      rcases foldl_max_mem ys y with h' | h'
      · rw [h']; exact List.mem_cons.mpr (Or.inl rfl)
      · exact List.mem_cons.mpr (Or.inr h')

theorem pyMin_le {l : List Nat} {x : Nat} (hx : x ∈ l) : pyMin l ≤ x := by
  cases l with
  | nil => simp at hx
  | cons y ys =>
      show ys.foldl min y ≤ x
      rcases List.mem_cons.mp hx with rfl | h
      · exact foldl_min_le ys x x (Or.inl le_rfl)
      · exact foldl_min_le ys y x (Or.inr h)

theorem pyMin_mem {l : List Nat} (h : l ≠ []) : pyMin l ∈ l := by
  cases l with
  | nil => exact absurd rfl h
  | cons y ys =>
      show ys.foldl min y ∈ y :: ys
      rcases foldl_min_mem ys y with h' | h'
      · rw [h']; exact List.mem_cons.mpr (Or.inl rfl)
      · exact List.mem_cons.mpr (Or.inr h')

/-- C7: the coverage statistics are the advertised aggregates:
total = sum of actual hits, percentage = 100·total/baseHits when
`baseHits > 0` (it may exceed 100) and 0 when `baseHits = 0`,
under-target counts records with hits < target, and average, largest and
smallest are the mean, maximum and minimum of the actual hit counts. -/
theorem verify_coverage_spec (target : Nat) (queries : List FinalRecord)
    (baseHits : Nat) :
    (verifyCoverage target queries baseHits).totalCoverage =
      (queries.map (fun q => q.actualHits)).sum ∧
    (0 < baseHits → (verifyCoverage target queries baseHits).coveragePercentage =
      100 * ((verifyCoverage target queries baseHits).totalCoverage : ℚ) / (baseHits : ℚ)) ∧
    (baseHits = 0 → (verifyCoverage target queries baseHits).coveragePercentage = 0) ∧
    (verifyCoverage target queries baseHits).queriesUnderTarget =
      (queries.filter (fun q => decide (q.actualHits < target))).length ∧
    (verifyCoverage target queries baseHits).queryCount = queries.length ∧
    (queries ≠ [] → (verifyCoverage target queries baseHits).avgHitsPerQuery =
      ((verifyCoverage target queries baseHits).totalCoverage : ℚ) / (queries.length : ℚ)) ∧
    (∀ q ∈ queries,
      q.actualHits ≤ (verifyCoverage target queries baseHits).largestQuery ∧
      (verifyCoverage target queries baseHits).smallestQuery ≤ q.actualHits) ∧
    (queries ≠ [] →
      (verifyCoverage target queries baseHits).largestQuery ∈
        queries.map (fun q => q.actualHits) ∧
      (verifyCoverage target queries baseHits).smallestQuery ∈
        queries.map (fun q => q.actualHits)) ∧
    (verifyCoverage 900 [⟨1, "q", [], "single", 0, 200⟩] 100).coveragePercentage > 100 := by
  refine ⟨rfl, ?_, ?_, rfl, rfl, ?_, ?_, ?_, ?_⟩
  · intro hb
    simp only [verifyCoverage, if_pos hb]
    rw [div_mul_eq_mul_div, mul_comm]
  · intro hb
    simp [verifyCoverage, hb]
  · intro hne
    have : queries.isEmpty = false := by
      cases queries with
      | nil => exact absurd rfl hne
      | cons q qs => rfl
    simp [verifyCoverage, this]
  · intro q hq
    have hne : queries.isEmpty = false := by
      cases queries with
      | nil => simp at hq
      | cons a l => rfl
    constructor
    · simp only [verifyCoverage, hne, Bool.false_eq_true, if_false]
      exact le_pyMax (List.mem_map.mpr ⟨q, hq, rfl⟩)
    · simp only [verifyCoverage, hne, Bool.false_eq_true, if_false]
      exact pyMin_le (List.mem_map.mpr ⟨q, hq, rfl⟩)
  · intro hne
    have hb : queries.isEmpty = false := by
      cases queries with
      | nil => exact absurd rfl hne
      | cons a l => rfl
    have hm : queries.map (fun q => q.actualHits) ≠ [] := by
      simp [hne]
    constructor
    · simp only [verifyCoverage, hb, Bool.false_eq_true, if_false]
      exact pyMax_mem hm
    · simp only [verifyCoverage, hb, Bool.false_eq_true, if_false]
      exact pyMin_mem hm
  · norm_num [verifyCoverage]

/-- C7 witness: a single 3-hit record against 2 base hits yields
percentage 100·3/2 = 150. -/
theorem verify_coverage_spec_witness :
    (0 : Nat) < 2 ∧
    (verifyCoverage 900 [⟨1, "a", [], "single", 3, 3⟩] 2).coveragePercentage =
      100 * ((verifyCoverage 900 [⟨1, "a", [], "single", 3, 3⟩] 2).totalCoverage : ℚ)
        / (2 : ℚ) :=
  ⟨by decide,
   (verify_coverage_spec 900 [⟨1, "a", [], "single", 3, 3⟩] 2).2.1 (by decide)⟩

theorem phase1Result_eq (base : String) (baseHits target : Nat)
    (kwMap entMap : List (String × Nat)) :
    phase1Result base baseHits target kwMap entMap =
      ((phase1Selected target kwMap entMap baseHits).map (toSingleCandidate base),
       (baseHits : Int) - sumHits (phase1Selected target kwMap entMap baseHits),
       (phase1Selected target kwMap entMap baseHits).map (fun m => m.modifier)) := by
  rw [phase1Result, phase1Loop_eq]
  simp [phase1Selected, sortedPool]

theorem mem_phase1Selected {m : PoolMod} {target baseHits : Nat}
    {kwMap entMap : List (String × Nat)}
    (h : m ∈ phase1Selected target kwMap entMap baseHits) :
    m ∈ buildPool target kwMap entMap :=
  (sortDesc_perm (fun m : PoolMod => m.hits)
    (buildPool target kwMap entMap)).mem_iff.mp
      (mem_dedupePool (mem_greedyTake h))

/-- C3: every `single` candidate of the strategy carries a modifier whose
measured hit count in the effectiveness map lies strictly between 0 and
the target size (a modifier measured at 0 or ≥ target never becomes a
Phase-1 single). -/
theorem single_candidates_within_target (oracle : String → Nat) (target : Nat)
    (base : String) (baseHits : Nat) (kwMap entMap : List (String × Nat))
    (yr : Option (Int × Int)) :
    ∀ c ∈ createSplitStrategy oracle target base baseHits kwMap entMap yr,
      c.kind = "single" →
      ∃ name h, c.modifiers = [name] ∧ c.expectedHits = h ∧ 0 < h ∧ h < target ∧
        c.query = andQuoted base name ∧
        ((name, h) ∈ kwMap ∨ (name, h) ∈ entMap) := by
  intro c hc hk
  simp only [createSplitStrategy] at hc
  rcases List.mem_append.mp hc with hc | hc
  · rcases List.mem_append.mp hc with hc | hc
    · simp only [phase1Result_eq] at hc
      rcases List.mem_map.mp hc with ⟨m, hm, rfl⟩
      have hp := mem_buildPool (mem_phase1Selected hm)
      exact ⟨m.modifier, m.hits, rfl, rfl, hp.1.1, hp.1.2, rfl, hp.2⟩
    · by_cases hr : 0 < (phase1Result base baseHits target kwMap entMap).2.1
      · rw [if_pos hr] at hc
        have hkind := phase2Outer_kind oracle target base yr _ _ _ c hc
        rw [hkind] at hk
        exact absurd hk (by decide)
      · rw [if_neg hr] at hc
        simp at hc
  · have hkind := phase3_kind oracle base yr _ _ c hc
    rw [hkind] at hk
    exact absurd hk (by decide)

/-- C3 witness: a 5-hit keyword under target 900 becomes the only single
candidate, and the invariant instantiates at it. -/
theorem single_candidates_within_target_witness :
    ((⟨andQuoted "B" "k", ["k"], 5, "single"⟩ : Candidate) ∈
      createSplitStrategy (fun _ => 0) 900 "B" 100 [("k", 5)] [] none) ∧
    ∃ name h, (["k"] : List String) = [name] ∧ (5 : Nat) = h ∧ 0 < h ∧
      h < 900 ∧ andQuoted "B" "k" = andQuoted "B" name ∧
      ((name, h) ∈ [("k", 5)] ∨ (name, h) ∈ ([] : List (String × Nat))) :=
  ⟨by decide,
   (single_candidates_within_target (fun _ => 0) 900 "B" 100 [("k", 5)] [] none)
     ⟨andQuoted "B" "k", ["k"], 5, "single"⟩ (by decide) rfl⟩

theorem filter_kind_nil {l : List Candidate} {k : String}
    (h : ∀ c ∈ l, c.kind ≠ k) : l.filter (fun c => c.kind == k) = [] := by
  induction l with
  | nil => rfl
  | cons c rest ih =>
      simp only [List.filter_cons]
      rw [if_neg (by simpa using h c (List.mem_cons.mpr (Or.inl rfl)))]
      exact ih (fun c hc => h c (List.mem_cons.mpr (Or.inr hc)))

theorem filter_kind_self {l : List Candidate} {k : String}
    (h : ∀ c ∈ l, c.kind = k) : l.filter (fun c => c.kind == k) = l := by
  induction l with
  | nil => rfl
  | cons c rest ih =>
      simp only [List.filter_cons]
      rw [if_pos (by simpa using h c (List.mem_cons.mpr (Or.inl rfl)))]
      rw [ih (fun c hc => h c (List.mem_cons.mpr (Or.inr hc)))]

theorem phase1Result_kind (base : String) (baseHits target : Nat)
    (kwMap entMap : List (String × Nat)) :
    ∀ c ∈ (phase1Result base baseHits target kwMap entMap).1,
      c.kind = "single" := by
  intro c hcm
  simp only [phase1Result_eq] at hcm
  rcases List.mem_map.mp hcm with ⟨m, _, rfl⟩
  rfl

theorem phase3_nonpos (oracle : String → Nat) (base : String)
    (yr : Option (Int × Int)) (used : List String) {r : Int} (hr : ¬ 0 < r) :
    phase3 oracle base yr used r = [] := by
  unfold phase3
  rw [if_neg hr]

/-- C5: combination candidates exist only when Phase 1 leaves positive
remaining coverage, and are then exactly the single pass over the
keyword×entity pairs of the first 10 unused keywords and first 10 unused
entities (in sorted map order, keywords outer), accepting a pair iff its
live hit count is in `(0, target)`, subtracting accepted hits, and
stopping as soon as the remainder drops to ≤ 0. -/
theorem phase2_combination_spec (oracle : String → Nat) (target : Nat)
    (base : String) (baseHits : Nat) (kwMap entMap : List (String × Nat))
    (yr : Option (Int × Int)) :
    ((phase1Result base baseHits target kwMap entMap).2.1 ≤ 0 →
      (createSplitStrategy oracle target base baseHits kwMap entMap yr).filter
        (fun c => c.kind == "combination") = []) ∧
    (0 < (phase1Result base baseHits target kwMap entMap).2.1 →
      (createSplitStrategy oracle target base baseHits kwMap entMap yr).filter
        (fun c => c.kind == "combination") =
      phase2Pairs oracle target base yr
        (pairList
          (unusedTake10 kwMap (usedAfterPhase1 base baseHits target kwMap entMap))
          (unusedTake10 entMap (usedAfterPhase1 base baseHits target kwMap entMap)))
        (phase1Result base baseHits target kwMap entMap).2.1) := by
  have hp1 : ∀ c ∈ (phase1Result base baseHits target kwMap entMap).1,
      c.kind ≠ "combination" := by
    intro c hcm
    rw [phase1Result_kind base baseHits target kwMap entMap c hcm]
    decide
  constructor
  · intro hr
    have hnr : ¬ 0 < (phase1Result base baseHits target kwMap entMap).2.1 :=
      not_lt.mpr hr
    simp only [createSplitStrategy, if_neg hnr]
    rw [List.filter_append, List.filter_append]
    rw [filter_kind_nil hp1]
    rw [phase3_nonpos oracle base yr _ hnr]
    simp
  · intro hr
    simp only [createSplitStrategy, if_pos hr]
    rw [phase2Outer_eq oracle target base yr _ _ _ hr]
    rw [List.filter_append, List.filter_append]
    rw [filter_kind_nil hp1]
    rw [filter_kind_self (phase2Pairs_kind oracle target base yr _ _)]
    rw [filter_kind_nil (fun c hc => by
      rw [phase3_kind oracle base yr _ _ c hc]; decide)]
    simp [usedAfterPhase1]

/-- C5 witness: with 4200 hits still uncovered after Phase 1, the unused
keyword `k2` × unused entity `e1` pair (300 live hits) is accepted as the
only combination candidate. -/
theorem phase2_combination_spec_witness :
    0 < (phase1Result "B" 5000 900 [("k1", 800), ("k2", 0)] [("e1", 0)]).2.1 ∧
    (createSplitStrategy (fun q => if q = pairQuery "B" "k2" "e1" then 300 else 0)
        900 "B" 5000 [("k1", 800), ("k2", 0)] [("e1", 0)] none).filter
      (fun c => c.kind == "combination") =
    phase2Pairs (fun q => if q = pairQuery "B" "k2" "e1" then 300 else 0)
      900 "B" none
      (pairList
        (unusedTake10 [("k1", 800), ("k2", 0)]
          (usedAfterPhase1 "B" 5000 900 [("k1", 800), ("k2", 0)] [("e1", 0)]))
        (unusedTake10 [("e1", 0)]
          (usedAfterPhase1 "B" 5000 900 [("k1", 800), ("k2", 0)] [("e1", 0)])))
      (phase1Result "B" 5000 900 [("k1", 800), ("k2", 0)] [("e1", 0)]).2.1 :=
  ⟨by decide,
   (phase2_combination_spec (fun q => if q = pairQuery "B" "k2" "e1" then 300 else 0)
      900 "B" 5000 [("k1", 800), ("k2", 0)] [("e1", 0)] none).2 (by decide)⟩

theorem phase3_eq (oracle : String → Nat) (base : String)
    (yr : Option (Int × Int)) (used : List String) (r : Int) :
    phase3 oracle base yr used r =
      (if 0 < r ∧ 0 < getHitCount oracle (exclusionQuery base used) yr then
        [⟨exclusionQuery base used, exclusionMods used,
          getHitCount oracle (exclusionQuery base used) yr, "exclusion"⟩]
      else []) := by
  unfold phase3
  by_cases hr : 0 < r
  · by_cases hh : 0 < getHitCount oracle (exclusionQuery base used) yr
    · rw [if_pos hr, if_pos hh, if_pos ⟨hr, hh⟩]
    · rw [if_pos hr, if_neg hh, if_neg (fun hand => hh hand.2)]
  · rw [if_neg hr, if_neg (fun hand => hr hand.1)]

/-- C6: the strategy's exclusion candidates are exactly the one
candidate built from the single exclusion query over at most 5 used
modifiers, present iff the remaining coverage after Phase 2 is positive
and the query's live hit count is positive — with no upper-bound check,
as the final conjunct shows concretely: a 5000-hit exclusion query is
accepted against target 900. -/
theorem phase3_exclusion_spec (oracle : String → Nat) (target : Nat)
    (base : String) (baseHits : Nat) (kwMap entMap : List (String × Nat))
    (yr : Option (Int × Int)) :
    ((createSplitStrategy oracle target base baseHits kwMap entMap yr).filter
        (fun c => c.kind == "exclusion") =
      (if 0 < phase2Remaining oracle target base baseHits kwMap entMap yr ∧
          0 < getHitCount oracle (exclusionQuery base
            (usedAfterPhase1 base baseHits target kwMap entMap)) yr then
        [⟨exclusionQuery base (usedAfterPhase1 base baseHits target kwMap entMap),
          exclusionMods (usedAfterPhase1 base baseHits target kwMap entMap),
          getHitCount oracle (exclusionQuery base
            (usedAfterPhase1 base baseHits target kwMap entMap)) yr,
          "exclusion"⟩]
      else [])) ∧
    (exclusionMods (usedAfterPhase1 base baseHits target kwMap entMap)).length ≤ 5 ∧
    ((⟨"B NOT \"k1\"", ["NOT \"k1\""], 5000, "exclusion"⟩ : Candidate) ∈
        createSplitStrategy (fun q => if q = "B NOT \"k1\"" then 5000 else 0)
          900 "B" 10000 [("k1", 800)] [] none ∧
      5000 > 900) := by
  have hp1 : ∀ c ∈ (phase1Result base baseHits target kwMap entMap).1,
      c.kind ≠ "exclusion" := by
    intro c hcm
    rw [phase1Result_kind base baseHits target kwMap entMap c hcm]
    decide
  refine ⟨?_, ?_, by decide, by decide⟩
  · by_cases hr : 0 < (phase1Result base baseHits target kwMap entMap).2.1
    · simp only [createSplitStrategy, if_pos hr]
      rw [List.filter_append, List.filter_append]
      rw [filter_kind_nil hp1]
      rw [filter_kind_nil (fun c hc => by
        rw [phase2Outer_kind oracle target base yr _ _ _ c hc]; decide)]
      rw [filter_kind_self (phase3_kind oracle base yr _ _)]
      rw [phase3_eq]
      simp only [phase2Remaining, if_pos hr, usedAfterPhase1]
      simp
    · simp only [createSplitStrategy, if_neg hr]
      rw [List.filter_append, List.filter_append]
      rw [filter_kind_nil hp1]
      rw [filter_kind_self (phase3_kind oracle base yr _ _)]
      rw [phase3_eq]
      simp only [phase2Remaining, if_neg hr, usedAfterPhase1]
      simp
  · simp only [exclusionMods, List.length_map, List.length_take]
    omega

end SQS
